import Mathlib

/- Shallow embedding of the WealthTrack backend price-resolution service
   (PriceService in src/services/prices.ts) and the per-asset valuation step
   of the portfolio-value route (src/routes/prices.ts).

   External effects are made explicit:
   - the Prisma price_cache table is a list of rows threaded through each call;
   - the CoinGecko / Yahoo Finance responses and the cache's read/write
     availability are fields of an `Env` record;
   - every provider request that the code issues is appended to a call log,
     so that claims about "no provider call" can be stated. -/

namespace WealthTrack

/-- JS `String.prototype.toUpperCase`, character-wise ASCII upper-casing as
used on the service's ticker symbols. -/
def toUpperCase (s : String) : String := ⟨s.data.map Char.toUpper⟩

/-- `CRYPTO_MAPPINGS`: crypto ticker → CoinGecko asset id. -/
def CRYPTO_MAPPINGS : List (String × String) :=
  [("BTC", "bitcoin"), ("ETH", "ethereum"), ("BNB", "binancecoin"),
   ("SOL", "solana"), ("ADA", "cardano"), ("XRP", "ripple"),
   ("DOGE", "dogecoin"), ("DOT", "polkadot"), ("MATIC", "matic-network"),
   ("SHIB", "shiba-inu"), ("AVAX", "avalanche-2"), ("LINK", "chainlink"),
   ("UNI", "uniswap"), ("ATOM", "cosmos"), ("LTC", "litecoin")]

/-- The JS object access `CRYPTO_MAPPINGS[symbol]`. -/
def cryptoLookup (symbol : String) : Option String :=
  (CRYPTO_MAPPINGS.find? (fun e => e.1 = symbol)).map (fun e => e.2)

/-- `SUPPORTED_STOCKS`. -/
def SUPPORTED_STOCKS : List String :=
  ["AAPL", "GOOGL", "MSFT", "TSLA", "AMZN",
   "META", "NVDA", "AMD", "NFLX", "DIS",
   "JPM", "V", "WMT", "PG", "MA",
   "PYPL", "INTC", "CSCO", "PFE", "KO"]

/-- The regex test for 1 to 5 upper-case letters used by `isStockSymbol`. -/
def stockShape (symbol : String) : Bool :=
  decide (1 ≤ symbol.data.length) && decide (symbol.data.length ≤ 5) &&
    symbol.data.all (fun c => decide ('A' ≤ c) && decide (c ≤ 'Z'))

/-- `PriceService.isStockSymbol`. -/
def isStockSymbol (symbol : String) : Bool :=
  SUPPORTED_STOCKS.contains symbol ||
    (stockShape symbol && (cryptoLookup symbol).isNone)

/-- The `source` field of `PriceData`. -/
inductive Source where
  | coingecko
  | yahoo
  | manual
deriving DecidableEq, Repr

/-- The `PriceData` interface. `lastUpdated` is a millisecond timestamp. -/
structure PriceData where
  symbol : String
  price : ℚ
  change24h : Option ℚ
  changePercent24h : Option ℚ
  lastUpdated : Nat
  source : Source
deriving DecidableEq, Repr

/-- A row of the Prisma `price_cache` table. -/
structure CacheRow where
  symbol : String
  current_price : ℚ
  updated_at : Nat
deriving DecidableEq, Repr

/-- `prisma.priceCache.findUnique` on the symbol key. -/
def lookupCache (cache : List CacheRow) (symbol : String) : Option CacheRow :=
  cache.find? (fun r => r.symbol = symbol)

/-- `prisma.priceCache.upsert`: replace the row with the same symbol key,
or append a new row. -/
def upsertCache : List CacheRow → CacheRow → List CacheRow
  | [], row => [row]
  | r :: rest, row =>
    if r.symbol = row.symbol then row :: rest else r :: upsertCache rest row

/-- One CoinGecko per-coin payload entry (`response.data[coinId]`). -/
structure GeckoData where
  usd : ℚ
  usd_24h_change : Option ℚ

/-- A Yahoo Finance quote; `Option` fields are possibly-undefined. -/
structure Quote where
  regularMarketPrice : Option ℚ
  regularMarketChange : Option ℚ
  regularMarketChangePercent : Option ℚ

/-- The external world during one service call: the clock, the providers'
behavior (an `Except.error` models a thrown request), and whether the cache
database accepts reads/writes (`false` models a thrown Prisma call). -/
structure Env where
  now : Nat
  gecko : Except Unit (String → Option GeckoData)
  yahoo : String → Except Unit (Option Quote)
  cacheReadOk : String → Bool
  cacheWriteOk : String → Bool

/-- A provider request issued by the service. -/
inductive PCall where
  | gecko (ids : List String)
  | yahoo (symbol : String)
deriving DecidableEq, Repr

/-- Result of a service call: the returned value, the cache state after the
call, and the provider requests issued during it. -/
structure FetchOut (α : Type) where
  val : α
  cache : List CacheRow
  calls : List PCall

/-- A JS `Map<string, PriceData | null>` as an insertion-ordered
association list: `none` in the range is JS `null`. -/
abbrev PriceMap := List (String × Option PriceData)

/-- JS `Map.set`: overwrite in place, else append. -/
def setK : PriceMap → String → Option PriceData → PriceMap
  | [], k, v => [(k, v)]
  | e :: rest, k, v =>
    if e.1 = k then (k, v) :: rest else e :: setK rest k v

/-- JS `Map.get`: `some v` when the key is present (`v = none` is a stored
`null`), `none` when the key is absent. -/
def lookupM (m : PriceMap) (k : String) : Option (Option PriceData) :=
  (m.find? (fun e => e.1 = k)).map (fun e => e.2)

/-- `CACHE_DURATION_MINUTES`. -/
def CACHE_DURATION_MINUTES : Nat := 5

/-- `PriceService.getCachedPrice`: a failed read is caught and yields `null`;
a missing or expired row yields `null`; otherwise the row is rehydrated with
a `source` recomputed from the current classification tables. -/
def getCachedPrice (env : Env) (cache : List CacheRow) (symbol : String) :
    Option PriceData :=
  if env.cacheReadOk symbol then
    match lookupCache cache symbol with
    | none => none
    | some cached =>
      let cacheAge := env.now - cached.updated_at
      let maxAge := CACHE_DURATION_MINUTES * 60 * 1000
      if cacheAge > maxAge then none
      else
        let src := if (cryptoLookup symbol).isSome then Source.coingecko
                   else Source.yahoo
        some { symbol := cached.symbol, price := cached.current_price,
               change24h := none, changePercent24h := none,
               lastUpdated := cached.updated_at, source := src }
  else none

/-- `PriceService.cachePrice`: upsert `symbol`/`current_price`, with
`updated_at` set to now; a failed write is caught and leaves the cache
unchanged. -/
def cachePrice (env : Env) (cache : List CacheRow) (priceData : PriceData) :
    List CacheRow :=
  if env.cacheWriteOk priceData.symbol then
    upsertCache cache { symbol := priceData.symbol,
                        current_price := priceData.price,
                        updated_at := env.now }
  else cache

/-- `PriceService.fetchCryptoPrice`. -/
def fetchCryptoPrice (env : Env) (cache : List CacheRow) (symbol : String) :
    FetchOut (Option PriceData) :=
  match cryptoLookup symbol with
  | none => ⟨none, cache, []⟩
  | some coinId =>
    match env.gecko with
    | Except.error _ => ⟨none, cache, [PCall.gecko [coinId]]⟩
    | Except.ok payload =>
      match payload coinId with
      | none => ⟨none, cache, [PCall.gecko [coinId]]⟩
      | some data =>
        let priceData : PriceData :=
          { symbol := symbol, price := data.usd,
            change24h := data.usd_24h_change,
            changePercent24h := data.usd_24h_change,
            lastUpdated := env.now, source := Source.coingecko }
        ⟨some priceData, cachePrice env cache priceData,
          [PCall.gecko [coinId]]⟩

/-- The `mockPrices` table of `fetchManualStockPrice`. -/
def mockPrices : List (String × ℚ) :=
  [("AAPL", 182.50), ("GOOGL", 142.30), ("MSFT", 378.90), ("TSLA", 245.60),
   ("AMZN", 155.20), ("META", 362.40), ("NVDA", 487.30), ("AMD", 167.80),
   ("NFLX", 445.60), ("DIS", 92.30)]

/-- The JS object access `mockPrices[symbol]`. -/
def mockLookup (symbol : String) : Option ℚ :=
  (mockPrices.find? (fun e => e.1 = symbol)).map (fun e => e.2)

/-- `PriceService.fetchManualStockPrice`: `mockPrices[symbol] || 100` (every
table value is nonzero, so JS `||` is default-on-missing here). -/
def fetchManualStockPrice (env : Env) (cache : List CacheRow)
    (symbol : String) : PriceData × List CacheRow :=
  let price := (mockLookup symbol).getD 100
  let priceData : PriceData :=
    { symbol := symbol, price := price, change24h := some 0,
      changePercent24h := some 0, lastUpdated := env.now,
      source := Source.manual }
  (priceData, cachePrice env cache priceData)

/-- `PriceService.fetchStockPrice`: a thrown Yahoo call falls back to the
manual price; a missing quote or a missing/zero (falsy)
`regularMarketPrice` yields `null`. -/
def fetchStockPrice (env : Env) (cache : List CacheRow) (symbol : String) :
    FetchOut (Option PriceData) :=
  match env.yahoo symbol with
  | Except.error _ =>
    let r := fetchManualStockPrice env cache symbol
    ⟨some r.1, r.2, [PCall.yahoo symbol]⟩
  | Except.ok none => ⟨none, cache, [PCall.yahoo symbol]⟩
  | Except.ok (some quote) =>
    match quote.regularMarketPrice with
    | none => ⟨none, cache, [PCall.yahoo symbol]⟩
    | some p =>
      if p = 0 then ⟨none, cache, [PCall.yahoo symbol]⟩
      else
        let priceData : PriceData :=
          { symbol := toUpperCase symbol, price := p,
            change24h := some (quote.regularMarketChange.getD 0),
            changePercent24h := some (quote.regularMarketChangePercent.getD 0),
            lastUpdated := env.now, source := Source.yahoo }
        ⟨some priceData, cachePrice env cache priceData,
          [PCall.yahoo symbol]⟩

/-- `PriceService.getPrice`. -/
def getPrice (env : Env) (cache : List CacheRow) (symbol : String) :
    FetchOut (Option PriceData) :=
  let upperSymbol := toUpperCase symbol
  match getCachedPrice env cache upperSymbol with
  | some cached => ⟨some cached, cache, []⟩
  | none =>
    if (cryptoLookup upperSymbol).isSome then
      fetchCryptoPrice env cache upperSymbol
    else if isStockSymbol upperSymbol then
      fetchStockPrice env cache upperSymbol
    else ⟨none, cache, []⟩

/-- The per-symbol body of the response-processing loop of
`PriceService.fetchCryptoPricesBatch` (the map under construction and the
cache are the loop state). -/
def batchStep (env : Env) (payload : String → Option GeckoData)
    (acc : PriceMap × List CacheRow) (s : String) :
    PriceMap × List CacheRow :=
  let upperSymbol := toUpperCase s
  match cryptoLookup upperSymbol with
  | some coinId =>
    match payload coinId with
    | some data =>
      let priceData : PriceData :=
        { symbol := upperSymbol, price := data.usd,
          change24h := data.usd_24h_change,
          changePercent24h := data.usd_24h_change,
          lastUpdated := env.now, source := Source.coingecko }
      (setK acc.1 upperSymbol (some priceData),
       cachePrice env acc.2 priceData)
    | none => (setK acc.1 upperSymbol none, acc.2)
  | none => (setK acc.1 upperSymbol none, acc.2)

/-- The value that the response-processing loop of
`fetchCryptoPricesBatch` stores for an (upper-cased) map key: it depends
only on the key, the payload and the clock. -/
def batchVal (env : Env) (payload : String → Option GeckoData)
    (k : String) : Option PriceData :=
  match cryptoLookup k with
  | some coinId =>
    match payload coinId with
    | some data =>
      some { symbol := k, price := data.usd,
             change24h := data.usd_24h_change,
             changePercent24h := data.usd_24h_change,
             lastUpdated := env.now, source := Source.coingecko }
    | none => none
  | none => none

/-- `PriceService.fetchCryptoPricesBatch`: one request for the whole batch;
a thrown request maps every symbol to `null`; a symbol whose coin id is
missing from the payload maps to `null`, one present in the payload maps to
a record that is also cached. -/
def fetchCryptoPricesBatch (env : Env) (cache : List CacheRow)
    (symbols : List String) : FetchOut PriceMap :=
  let coinIds := symbols.filterMap (fun s => cryptoLookup (toUpperCase s))
  if coinIds.isEmpty then ⟨[], cache, []⟩
  else
    match env.gecko with
    | Except.error _ =>
      ⟨symbols.foldl (fun m s => setK m (toUpperCase s) none) [], cache,
        [PCall.gecko coinIds]⟩
    | Except.ok payload =>
      let out := symbols.foldl (batchStep env payload) ([], cache)
      ⟨out.1, out.2, [PCall.gecko coinIds]⟩

/-- The per-symbol body of the stock loop of `PriceService.getPrices`. -/
def stockStep (env : Env) (acc : FetchOut PriceMap) (s : String) :
    FetchOut PriceMap :=
  let r := getPrice env acc.cache s
  ⟨setK acc.val (toUpperCase s) r.val, r.cache, acc.calls ++ r.calls⟩

/-- `PriceService.getPrices`: partition the input by classification, fetch
the crypto partition in one batch, then each stock symbol through
`getPrice`; a symbol in neither partition is never inserted into the map. -/
def getPrices (env : Env) (cache : List CacheRow) (symbols : List String) :
    FetchOut PriceMap :=
  let cryptoSymbols :=
    symbols.filter (fun s => (cryptoLookup (toUpperCase s)).isSome)
  let stockSymbols :=
    symbols.filter (fun s => isStockSymbol (toUpperCase s))
  let start : FetchOut PriceMap :=
    if cryptoSymbols.isEmpty then ⟨[], cache, []⟩
    else
      let b := fetchCryptoPricesBatch env cache cryptoSymbols
      ⟨b.val.foldl (fun m e => setK m e.1 e.2) [], b.cache, b.calls⟩
  stockSymbols.foldl (stockStep env) start

/-- An asset row as used by the portfolio-value route. -/
structure Asset where
  symbol : String
  quantity : ℚ
  purchase_price : ℚ
deriving DecidableEq, Repr

/-- The per-asset output object of the portfolio-value route. -/
structure ValuedAsset where
  symbol : String
  quantity : ℚ
  purchasePrice : ℚ
  cost : ℚ
  currentPrice : ℚ
  currentValue : ℚ
  gainLoss : ℚ
  gainLossPercent : ℚ
deriving DecidableEq, Repr

/-- The per-asset valuation step of GET /api/prices/portfolio/value:
`prices.get(asset.symbol)` may be an absent key or a stored `null`, and
`priceData?.price || purchasePrice` falls back on both and on a zero
(falsy) price. -/
def valueAsset (prices : PriceMap) (asset : Asset) : ValuedAsset :=
  let quantity := asset.quantity
  let purchasePrice := asset.purchase_price
  let cost := quantity * purchasePrice
  let priceData : Option PriceData :=
    match lookupM prices asset.symbol with
    | some (some pd) => some pd
    | _ => none
  let currentPrice :=
    match priceData with
    | some pd => if pd.price = 0 then purchasePrice else pd.price
    | none => purchasePrice
  let currentValue := quantity * currentPrice
  let gainLoss := currentValue - cost
  let gainLossPercent := if cost > 0 then gainLoss / cost * 100 else 0
  { symbol := asset.symbol, quantity := quantity,
    purchasePrice := purchasePrice, cost := cost,
    currentPrice := currentPrice, currentValue := currentValue,
    gainLoss := gainLoss, gainLossPercent := gainLossPercent }

/-- A concrete environment: both providers respond successfully but report
no data for any symbol, the cache database is up, the clock reads 0. -/
def envIdle : Env :=
  ⟨0, Except.ok (fun _ => none), fun _ => Except.ok none,
   fun _ => true, fun _ => true⟩

/-- A concrete environment whose CoinGecko request throws. -/
def envDown : Env := { envIdle with gecko := Except.error () }

/-- A concrete environment quoting bitcoin at 65000 USD at time 1000 ms. -/
def envQuote : Env :=
  { envIdle with
    now := 1000,
    gecko := Except.ok
      (fun cid => if cid = "bitcoin" then some ⟨65000, none⟩ else none) }

/-- A concrete cache holding BTC at price 1, written at time 0. -/
def cacheBTC : List CacheRow := [⟨"BTC", 1, 0⟩]

/-- A concrete environment whose Yahoo Finance request throws. -/
def envYahooDown : Env := { envIdle with yahoo := fun _ => Except.error () }

/-- A concrete environment whose cache reads throw. -/
def envNoRead : Env := { envIdle with cacheReadOk := fun _ => false }

/-- A concrete environment whose clock reads 400000 ms (past the TTL of a
row written at time 0). -/
def envLate : Env := { envIdle with now := 400000 }

/-- A concrete cache holding AAPL at price 150, written at time 0. -/
def cacheAAPL : List CacheRow := [⟨"AAPL", 150, 0⟩]

/-! ### Helper lemmas -/


theorem char_ofNat_toNat (n : Nat) (h : n.isValidChar) : (Char.ofNat n).toNat = n := by
  simp only [Char.ofNat, dif_pos h, Char.ofNatAux, Char.toNat]
  simp [UInt32.toNat]

theorem char_toUpper_idem (c : Char) : (c.toUpper).toUpper = c.toUpper := by
  unfold Char.toUpper
  by_cases h : c.toNat ≥ 97 ∧ c.toNat ≤ 122
  · rw [if_pos h]
    have hv : (c.toNat - 32).isValidChar := by left; omega
    rw [if_neg]
    rw [char_ofNat_toNat _ hv]
    omega
  · rw [if_neg h, if_neg h]

theorem toUpperCase_idem (s : String) :
    toUpperCase (toUpperCase s) = toUpperCase s := by
  simp [toUpperCase, Function.comp_def, char_toUpper_idem]

theorem lookupM_setK (m : PriceMap) (k k' : String) (v : Option PriceData) :
    lookupM (setK m k v) k' = if k' = k then some v else lookupM m k' := by
  induction m with
  | nil =>
    by_cases h : k' = k
    · subst h; simp [setK, lookupM, List.find?]
    · have hkk : (decide (k = k')) = false := by
        simp only [decide_eq_false_iff_not]; exact fun hh => h hh.symm
      simp [setK, lookupM, List.find?, hkk, h]
  | cons e rest ih =>
    by_cases he : e.1 = k
    · by_cases h : k' = k
      · subst h
        simp [setK, he, lookupM, List.find?]
      · have hkk : (decide (k = k')) = false := by
          simp only [decide_eq_false_iff_not]; exact fun hh => h hh.symm
        have hek' : (decide (e.1 = k')) = false := by
          simp only [decide_eq_false_iff_not]
          exact fun hh => h (hh.symm.trans he)
        simp [setK, he, lookupM, List.find?, hkk, hek', h]
    · by_cases hek' : e.1 = k'
      · have h : ¬ k' = k := fun hh => he (hek'.trans hh)
        simp [setK, he, lookupM, List.find?, hek', h]
      · have hek'' : (decide (e.1 = k')) = false := by simp [hek']
        simp only [setK, if_neg he]
        simp only [lookupM, List.find?, hek'']
        simpa [lookupM, List.find?] using ih

theorem lookupM_isSome (m : PriceMap) (k : String) :
    (lookupM m k).isSome ↔ ∃ e ∈ m, e.1 = k := by
  induction m with
  | nil => simp [lookupM]
  | cons e rest ih =>
    by_cases hek : e.1 = k
    · simp [lookupM, List.find?, hek]
    · have h' : (decide (e.1 = k)) = false := by simp [hek]
      simp only [lookupM, List.find?, h']
      simp only [lookupM] at ih
      simp [ih, hek]

theorem lookupM_foldl_setKnone (S : List String) (m : PriceMap) (k : String) :
    lookupM (S.foldl (fun m s => setK m (toUpperCase s) none) m) k =
      if ∃ s ∈ S, toUpperCase s = k then some none else lookupM m k := by
  induction S generalizing m with
  | nil => simp
  | cons s rest ih =>
    simp only [List.foldl_cons]
    rw [ih, lookupM_setK]
    by_cases hr : ∃ x ∈ rest, toUpperCase x = k
    · rw [if_pos hr, if_pos (by exact ⟨hr.choose, List.mem_cons_of_mem s hr.choose_spec.1, hr.choose_spec.2⟩)]
    · rw [if_neg hr]
      by_cases hk : k = toUpperCase s
      · rw [if_pos hk, if_pos ⟨s, List.mem_cons_self s rest, hk.symm⟩]
      · rw [if_neg hk, if_neg]
        rintro ⟨x, hx, hxk⟩
        rcases List.mem_cons.mp hx with h | h
        · exact hk (h ▸ hxk).symm
        · exact hr ⟨x, h, hxk⟩

theorem batchStep_fst (env : Env) (payload : String → Option GeckoData)
    (acc : PriceMap × List CacheRow) (s : String) :
    (batchStep env payload acc s).1 =
      setK acc.1 (toUpperCase s) (batchVal env payload (toUpperCase s)) := by
  unfold batchStep batchVal
  cases h : cryptoLookup (toUpperCase s) with
  | none => simp [h]
  | some cid => cases hp : payload cid <;> simp [h, hp]

theorem lookupM_foldl_batchStep (env : Env)
    (payload : String → Option GeckoData) (S : List String)
    (acc : PriceMap × List CacheRow) (k : String) :
    lookupM ((S.foldl (batchStep env payload) acc).1) k =
      if ∃ s ∈ S, toUpperCase s = k then some (batchVal env payload k)
      else lookupM acc.1 k := by
  induction S generalizing acc with
  | nil => simp
  | cons s rest ih =>
    simp only [List.foldl_cons]
    rw [ih]
    by_cases hr : ∃ x ∈ rest, toUpperCase x = k
    · rw [if_pos hr, if_pos ⟨hr.choose, List.mem_cons_of_mem s hr.choose_spec.1, hr.choose_spec.2⟩]
    · rw [if_neg hr, batchStep_fst, lookupM_setK]
      by_cases hk : k = toUpperCase s
      · rw [if_pos hk, if_pos ⟨s, List.mem_cons_self s rest, hk.symm⟩, hk]
      · rw [if_neg hk, if_neg]
        rintro ⟨x, hx, hxk⟩
        rcases List.mem_cons.mp hx with h | h
        · exact hk (h ▸ hxk).symm
        · exact hr ⟨x, h, hxk⟩

theorem lookupM_foldl_stockStep_isSome (env : Env) (S : List String)
    (acc : FetchOut PriceMap) (k : String) :
    (lookupM ((S.foldl (stockStep env) acc).val) k).isSome ↔
      (∃ s ∈ S, toUpperCase s = k) ∨ (lookupM acc.val k).isSome := by
  induction S generalizing acc with
  | nil => simp
  | cons s rest ih =>
    simp only [List.foldl_cons]
    rw [ih]
    have hv : (stockStep env acc s).val =
        setK acc.val (toUpperCase s) (getPrice env acc.cache s).val := rfl
    rw [hv, lookupM_setK]
    by_cases hk : k = toUpperCase s
    · simp only [if_pos hk]
      constructor
      · intro _; exact Or.inl ⟨s, List.mem_cons_self s rest, hk.symm⟩
      · intro _; simp
    · simp only [if_neg hk]
      constructor
      · rintro (⟨x, hx, hxk⟩ | hsome)
        · exact Or.inl ⟨x, List.mem_cons_of_mem s hx, hxk⟩
        · exact Or.inr hsome
      · rintro (⟨x, hx, hxk⟩ | hsome)
        · rcases List.mem_cons.mp hx with h | h
          · exact absurd (h ▸ hxk).symm hk
          · exact Or.inl ⟨x, h, hxk⟩
        · exact Or.inr hsome

theorem lookupM_foldl_merge_isSome (l : PriceMap) (m : PriceMap) (k : String) :
    (lookupM (l.foldl (fun m e => setK m e.1 e.2) m) k).isSome ↔
      (∃ e ∈ l, e.1 = k) ∨ (lookupM m k).isSome := by
  induction l generalizing m with
  | nil => simp
  | cons e rest ih =>
    simp only [List.foldl_cons]
    rw [ih, lookupM_setK]
    by_cases hk : k = e.1
    · simp only [if_pos hk]
      constructor
      · intro h
        rcases h with ⟨x, hx, hxk⟩ | _
        · exact Or.inl ⟨x, List.mem_cons_of_mem e hx, hxk⟩
        · exact Or.inl ⟨e, List.mem_cons_self e rest, hk.symm⟩
      · intro _; simp
    · simp only [if_neg hk]
      constructor
      · rintro (⟨x, hx, hxk⟩ | hsome)
        · exact Or.inl ⟨x, List.mem_cons_of_mem e hx, hxk⟩
        · exact Or.inr hsome
      · rintro (⟨x, hx, hxk⟩ | hsome)
        · rcases List.mem_cons.mp hx with h | h
          · exact absurd (h ▸ hxk).symm hk
          · exact Or.inl ⟨x, h, hxk⟩
        · exact Or.inr hsome

theorem coinIds_not_empty {symbols : List String} {s : String}
    (hs : s ∈ symbols) (hc : (cryptoLookup (toUpperCase s)).isSome) :
    (symbols.filterMap (fun x => cryptoLookup (toUpperCase x))).isEmpty = false := by
  obtain ⟨cid, hcid⟩ := Option.isSome_iff_exists.mp hc
  have hm : cid ∈ symbols.filterMap (fun x => cryptoLookup (toUpperCase x)) :=
    List.mem_filterMap.mpr ⟨s, hs, hcid⟩
  have hnn : symbols.filterMap (fun x => cryptoLookup (toUpperCase x)) ≠ [] := by
    intro hnil; rw [hnil] at hm; cases hm
  cases hfm : symbols.filterMap (fun x => cryptoLookup (toUpperCase x)) with
  | nil => exact absurd hfm hnn
  | cons a l => rfl

theorem batch_key_isSome (env : Env) (cache : List CacheRow)
    (symbols : List String) (k : String)
    (hne : (symbols.filterMap (fun s => cryptoLookup (toUpperCase s))).isEmpty = false) :
    (lookupM (fetchCryptoPricesBatch env cache symbols).val k).isSome ↔
      ∃ s ∈ symbols, toUpperCase s = k := by
  unfold fetchCryptoPricesBatch
  simp only [hne, Bool.false_eq_true, if_false]
  cases hg : env.gecko with
  | error e =>
    rw [lookupM_foldl_setKnone]
    by_cases h : ∃ s ∈ symbols, toUpperCase s = k
    · simp [h]
    · simp [h, lookupM]
  | ok payload =>
    rw [lookupM_foldl_batchStep]
    by_cases h : ∃ s ∈ symbols, toUpperCase s = k
    · simp [h]
    · simp [h, lookupM]

theorem getPrices_key_isSome (env : Env) (cache : List CacheRow)
    (symbols : List String) (k : String) :
    (lookupM (getPrices env cache symbols).val k).isSome ↔
      ∃ s ∈ symbols, toUpperCase s = k ∧
        ((cryptoLookup (toUpperCase s)).isSome ∨
          isStockSymbol (toUpperCase s) = true) := by
  simp only [getPrices]
  rw [lookupM_foldl_stockStep_isSome]
  by_cases hce :
      (symbols.filter (fun s => (cryptoLookup (toUpperCase s)).isSome)).isEmpty
  · simp only [hce, if_true, lookupM, List.find?, Option.map_none', Option.isSome_none,
      Bool.false_eq_true, or_false]
    have hnil : symbols.filter (fun s => (cryptoLookup (toUpperCase s)).isSome) = [] :=
      List.isEmpty_iff.mp hce
    constructor
    · rintro ⟨s, hsf, hk⟩
      have hm := List.mem_filter.mp hsf
      exact ⟨s, hm.1, hk, Or.inr hm.2⟩
    · rintro ⟨s, hs, hk, hcs | hss⟩
      · have hmem : s ∈ symbols.filter (fun s => (cryptoLookup (toUpperCase s)).isSome) :=
          List.mem_filter.mpr ⟨hs, hcs⟩
        rw [hnil] at hmem; cases hmem
      · exact ⟨s, List.mem_filter.mpr ⟨hs, hss⟩, hk⟩
  · rw [Bool.not_eq_true] at hce
    simp only [hce, Bool.false_eq_true, if_false]
    have hnn : symbols.filter (fun s => (cryptoLookup (toUpperCase s)).isSome) ≠ [] := by
      intro hnil; rw [hnil] at hce; cases hce
    obtain ⟨s0, hs0⟩ := List.exists_mem_of_ne_nil
      (symbols.filter (fun s => (cryptoLookup (toUpperCase s)).isSome)) hnn
    have hs0m := List.mem_filter.mp hs0
    have hne := coinIds_not_empty hs0 hs0m.2
    rw [lookupM_foldl_merge_isSome]
    have hb := batch_key_isSome env cache (symbols.filter
        (fun s => (cryptoLookup (toUpperCase s)).isSome)) k hne
    rw [lookupM_isSome] at hb
    simp only [lookupM, List.find?, Option.map_none', Option.isSome_none,
      Bool.false_eq_true, or_false]
    rw [hb]
    constructor
    · rintro (⟨s, hsf, hk⟩ | ⟨s, hsf, hk⟩)
      · have hm := List.mem_filter.mp hsf
        exact ⟨s, hm.1, hk, Or.inr hm.2⟩
      · have hm := List.mem_filter.mp hsf
        exact ⟨s, hm.1, hk, Or.inl hm.2⟩
    · rintro ⟨s, hs, hk, hcs | hss⟩
      · exact Or.inr ⟨s, List.mem_filter.mpr ⟨hs, hcs⟩, hk⟩
      · exact Or.inl ⟨s, List.mem_filter.mpr ⟨hs, hss⟩, hk⟩

/-! ### Claim theorems, counterexamples and witnesses -/

theorem find?_val_ne_zero (l : List (String × ℚ)) (hl : ∀ e ∈ l, e.2 ≠ 0)
    (s : String) : (((l.find? (fun e => e.1 = s)).map (fun e => e.2)).getD 100) ≠ 0 := by
  cases hf : l.find? (fun e => e.1 = s) with
  | none => norm_num [hf]
  | some e =>
    simp only [hf, Option.map_some', Option.getD_some]
    exact hl e (List.mem_of_find?_eq_some hf)

theorem mockPrices_vals_ne_zero : ∀ e ∈ mockPrices, e.2 ≠ 0 := by
  intro e he
  fin_cases he <;> norm_num

theorem mockLookup_ne_zero (s : String) : ((mockLookup s).getD 100 : ℚ) ≠ 0 :=
  find?_val_ne_zero mockPrices mockPrices_vals_ne_zero s

/-- Claim C1: the claim is false on the code — an Unsupported symbol
(here a six-letter one, which fails the stock-shape test and has no crypto
mapping) is requested but the returned map has no key for it at all. -/
theorem claim1_counterexample :
    toUpperCase "ABCDEF" = "ABCDEF" ∧
    (getPrices envIdle [] ["ABCDEF"]).val = [] ∧
    lookupM (getPrices envIdle [] ["ABCDEF"]).val "ABCDEF" = none := by
  decide

/-- Claim C1 (amended): the key set of the map returned by
`PriceService.getPrices` equals the de-duplicated upper-case-normalized set
of those requested symbols that are classified Crypto or Equity; symbols
classified Unsupported are omitted from the keys entirely. -/
theorem claim1_amended (env : Env) (cache : List CacheRow)
    (symbols : List String) (k : String) :
    (lookupM (getPrices env cache symbols).val k).isSome ↔
      ∃ s ∈ symbols, toUpperCase s = k ∧
        ((cryptoLookup (toUpperCase s)).isSome ∨
          isStockSymbol (toUpperCase s) = true) :=
  getPrices_key_isSome env cache symbols k

/-- Claim C2: the claim is false on the code — a Crypto-classified symbol
resolves to an absent (null) record when the batch request throws, and an
Equity-classified symbol resolves to an absent record when the provider
responds successfully with no quote; no fallback intervenes in either case. -/
theorem claim2_counterexample :
    (cryptoLookup (toUpperCase "BTC")).isSome = true ∧
    lookupM (getPrices envDown [] ["BTC"]).val "BTC" = some none ∧
    isStockSymbol (toUpperCase "AAPL") = true ∧
    lookupM (getPrices envIdle [] ["AAPL"]).val "AAPL" = some none := by
  decide

/-- Claim C2 (amended): the fallback fires only for Equity-classified
symbols whose Yahoo call throws: for such a symbol (not freshly cached,
not crypto-mapped), `getPrice` returns a concrete manual-sourced record,
never an absent one. -/
theorem claim2_amended (env : Env) (cache : List CacheRow) (symbol : String)
    (hcache : getCachedPrice env cache (toUpperCase symbol) = none)
    (hcr : cryptoLookup (toUpperCase symbol) = none)
    (hst : isStockSymbol (toUpperCase symbol) = true)
    (hya : env.yahoo (toUpperCase symbol) = Except.error ()) :
    ∃ priceData, (getPrice env cache symbol).val = some priceData ∧
      priceData.source = Source.manual := by
  simp only [getPrice, hcache, hcr, Option.isSome_none, Bool.false_eq_true,
    if_false, hst, if_true]
  simp only [fetchStockPrice, hya]
  exact ⟨_, rfl, rfl⟩

/-- Claim C3: the claim is false on the code — with a fresh cached BTC
record in place, `getPrices(["BTC"])` still issues the batch provider call
for bitcoin and returns the provider's record, not the cached one. -/
theorem claim3_counterexample :
    getCachedPrice envQuote cacheBTC "BTC" =
      some ⟨"BTC", 1, none, none, 0, Source.coingecko⟩ ∧
    (getPrices envQuote cacheBTC ["BTC"]).calls = [PCall.gecko ["bitcoin"]] ∧
    lookupM (getPrices envQuote cacheBTC ["BTC"]).val "BTC" =
      some (some ⟨"BTC", 65000, none, none, 1000, Source.coingecko⟩) := by
  decide

/-- Claim C3 (amended): the cache short-circuit holds for `getPrice`
(fresh cache record → that record is returned and no provider call is
made), and through `getPrices` for Equity-classified symbols; Crypto
symbols resolved through `getPrices` always incur the batch provider
call. -/
theorem claim3_amended (env : Env) (cache : List CacheRow) (symbol : String)
    (cached : PriceData)
    (hfresh : getCachedPrice env cache (toUpperCase symbol) = some cached) :
    getPrice env cache symbol = ⟨some cached, cache, []⟩ ∧
    ((cryptoLookup (toUpperCase symbol)).isSome = false →
      isStockSymbol (toUpperCase symbol) = true →
      getPrices env cache [symbol] =
        ⟨[(toUpperCase symbol, some cached)], cache, []⟩) := by
  refine ⟨by simp only [getPrice, hfresh], ?_⟩
  intro hcr hst
  simp only [getPrices, List.filter, hcr, hst, List.isEmpty_nil, if_true,
    List.foldl_cons, List.foldl_nil, stockStep, getPrice, hfresh, setK,
    List.append_nil]

/-- Claim C4: evaluation at the failing input — a fallback (manual-sourced)
record for AAPL is written to the cache, and the immediate cache read-back
reports its source as yahoo, recomputed from the classification tables
rather than taken from storage (the cache row has no source field at
all). -/
theorem claim4_code_eval :
    (fetchManualStockPrice envIdle [] "AAPL").1.source = Source.manual ∧
    (getCachedPrice envIdle (fetchManualStockPrice envIdle [] "AAPL").2
        "AAPL").map (fun priceData => priceData.source) =
      some Source.yahoo := by
  decide

/-- Claim C5: with the cache database up, `getCachedPrice` returns absent
exactly when no row exists for the symbol or the row's age exceeds the
5-minute TTL (strictly); an expired row is never returned. -/
theorem claim5_ttl (env : Env) (cache : List CacheRow) (symbol : String)
    (hread : env.cacheReadOk symbol = true) :
    getCachedPrice env cache symbol = none ↔
      lookupCache cache symbol = none ∨
        ∃ row, lookupCache cache symbol = some row ∧
          env.now - row.updated_at > CACHE_DURATION_MINUTES * 60 * 1000 := by
  simp only [getCachedPrice, hread, if_true]
  cases hrow : lookupCache cache symbol with
  | none => simp
  | some row =>
    by_cases hage :
        env.now - row.updated_at > CACHE_DURATION_MINUTES * 60 * 1000
    · simp [hage]
    · simp [hage]

/-- Claim C7: the equity fetch treats a missing quote and a missing or
zero quoted price as failures (absent result), and never returns a record
whose price is zero. -/
theorem claim7_zero_price (env : Env) (cache : List CacheRow)
    (symbol : String) :
    (env.yahoo symbol = Except.ok none →
      (fetchStockPrice env cache symbol).val = none) ∧
    (∀ q, env.yahoo symbol = Except.ok (some q) →
      q.regularMarketPrice = none ∨ q.regularMarketPrice = some 0 →
      (fetchStockPrice env cache symbol).val = none) ∧
    (∀ priceData, (fetchStockPrice env cache symbol).val = some priceData →
      priceData.price ≠ 0) := by
  refine ⟨?_, ?_, ?_⟩
  · intro h; simp [fetchStockPrice, h]
  · rintro q h (hp | hp) <;> simp [fetchStockPrice, h, hp]
  · intro priceData hv
    cases hy : env.yahoo symbol with
    | error e =>
      simp only [fetchStockPrice, hy] at hv
      cases hv
      simp only [fetchManualStockPrice]
      exact mockLookup_ne_zero symbol
    | ok oq =>
      cases oq with
      | none => simp [fetchStockPrice, hy] at hv
      | some q =>
        cases hp : q.regularMarketPrice with
        | none => simp [fetchStockPrice, hy, hp] at hv
        | some p =>
          by_cases hz : p = 0
          · simp [fetchStockPrice, hy, hp, hz] at hv
          · simp only [fetchStockPrice, hy, hp, if_neg hz] at hv
            cases hv
            exact hz

/-- Claim C10: in the portfolio valuation, an asset whose symbol has an
absent map key, a stored null, or a zero resolved price takes its purchase
price as current price, so its current value equals its cost and it
contributes zero gain/loss. -/
theorem claim10_absent_or_zero (prices : PriceMap) (asset : Asset)
    (h : lookupM prices asset.symbol = none ∨
         lookupM prices asset.symbol = some none ∨
         ∃ priceData, lookupM prices asset.symbol = some (some priceData) ∧
           priceData.price = 0) :
    (valueAsset prices asset).currentPrice = asset.purchase_price ∧
    (valueAsset prices asset).currentValue = (valueAsset prices asset).cost ∧
    (valueAsset prices asset).gainLoss = 0 := by
  unfold valueAsset
  rcases h with h | h | ⟨priceData, h, hzero⟩
  · simp [h]
  · simp [h]
  · simp [h, hzero]

theorem fetchStockPrice_calls (env : Env) (cache : List CacheRow)
    (s : String) : (fetchStockPrice env cache s).calls = [PCall.yahoo s] := by
  cases hy : env.yahoo s with
  | error e => simp [fetchStockPrice, hy]
  | ok oq =>
    cases oq with
    | none => simp [fetchStockPrice, hy]
    | some q =>
      cases hp : q.regularMarketPrice with
      | none => simp [fetchStockPrice, hy, hp]
      | some p => by_cases hz : p = 0 <;> simp [fetchStockPrice, hy, hp, hz]

theorem fetchCryptoPrice_calls (env : Env) (cache : List CacheRow)
    {s coinId : String} (hcid : cryptoLookup s = some coinId) :
    (fetchCryptoPrice env cache s).calls = [PCall.gecko [coinId]] := by
  cases hg : env.gecko with
  | error e => simp [fetchCryptoPrice, hcid, hg]
  | ok payload =>
    cases hp : payload coinId <;> simp [fetchCryptoPrice, hcid, hg, hp]

theorem fetchCryptoPrice_val_write (env : Env) (w : String → Bool)
    (cache : List CacheRow) (s : String) :
    (fetchCryptoPrice { env with cacheWriteOk := w } cache s).val =
      (fetchCryptoPrice env cache s).val := by
  cases hcl : cryptoLookup s with
  | none => simp [fetchCryptoPrice, hcl]
  | some cid =>
    cases hg : env.gecko with
    | error e => simp [fetchCryptoPrice, hcl, hg]
    | ok payload =>
      cases hp : payload cid <;> simp [fetchCryptoPrice, hcl, hg, hp]

theorem fetchStockPrice_val_write (env : Env) (w : String → Bool)
    (cache : List CacheRow) (s : String) :
    (fetchStockPrice { env with cacheWriteOk := w } cache s).val =
      (fetchStockPrice env cache s).val := by
  cases hy : env.yahoo s with
  | error e => simp [fetchStockPrice, hy, fetchManualStockPrice]
  | ok oq =>
    cases oq with
    | none => simp [fetchStockPrice, hy]
    | some q =>
      cases hp : q.regularMarketPrice with
      | none => simp [fetchStockPrice, hy, hp]
      | some p => by_cases hz : p = 0 <;> simp [fetchStockPrice, hy, hp, hz]

theorem getPrice_val_write (env : Env) (w : String → Bool)
    (cache : List CacheRow) (symbol : String) :
    (getPrice { env with cacheWriteOk := w } cache symbol).val =
      (getPrice env cache symbol).val := by
  have hcc : getCachedPrice { env with cacheWriteOk := w } cache
      (toUpperCase symbol) = getCachedPrice env cache (toUpperCase symbol) := rfl
  simp only [getPrice]
  rw [hcc]
  cases hc : getCachedPrice env cache (toUpperCase symbol) with
  | some cached => rfl
  | none =>
    simp only []
    by_cases hcr : (cryptoLookup (toUpperCase symbol)).isSome
    · simp only [hcr, if_true]
      exact fetchCryptoPrice_val_write env w cache (toUpperCase symbol)
    · simp only [hcr, Bool.false_eq_true, if_false]
      by_cases hst : isStockSymbol (toUpperCase symbol)
      · simp only [hst, if_true]
        exact fetchStockPrice_val_write env w cache (toUpperCase symbol)
      · simp only [hst, Bool.false_eq_true, if_false]

/-- Claim C6: the crypto batch fetch resolves every symbol to a stored null
on total request failure, and on a successful response resolves each mapped
symbol per-symbol: null exactly when its coin id is missing from the
payload, and the translated record when it is present. -/
theorem claim6_batch (env : Env) (cache : List CacheRow)
    (symbols : List String) :
    (env.gecko = Except.error () →
      (symbols.filterMap (fun s => cryptoLookup (toUpperCase s))).isEmpty = false →
      ∀ s ∈ symbols,
        lookupM (fetchCryptoPricesBatch env cache symbols).val
          (toUpperCase s) = some none) ∧
    (∀ payload, env.gecko = Except.ok payload →
      ∀ s ∈ symbols, ∀ coinId, cryptoLookup (toUpperCase s) = some coinId →
        (payload coinId = none →
          lookupM (fetchCryptoPricesBatch env cache symbols).val
            (toUpperCase s) = some none) ∧
        (∀ data, payload coinId = some data →
          lookupM (fetchCryptoPricesBatch env cache symbols).val
            (toUpperCase s) =
            some (some ⟨toUpperCase s, data.usd, data.usd_24h_change,
              data.usd_24h_change, env.now, Source.coingecko⟩))) := by
  constructor
  · intro hg hne s hs
    simp only [fetchCryptoPricesBatch, hne, Bool.false_eq_true, if_false, hg]
    rw [lookupM_foldl_setKnone]
    rw [if_pos ⟨s, hs, rfl⟩]
  · intro payload hg s hs coinId hcid
    have hne := coinIds_not_empty hs (by rw [hcid]; rfl)
    constructor
    · intro hp
      simp only [fetchCryptoPricesBatch, hne, Bool.false_eq_true, if_false, hg]
      rw [lookupM_foldl_batchStep, if_pos ⟨s, hs, rfl⟩]
      simp [batchVal, hcid, hp]
    · intro data hp
      simp only [fetchCryptoPricesBatch, hne, Bool.false_eq_true, if_false, hg]
      rw [lookupM_foldl_batchStep, if_pos ⟨s, hs, rfl⟩]
      simp [batchVal, hcid, hp]

/-- Claim C8: cache unavailability never propagates — a failed cache read
makes `getCachedPrice` report a miss, on such a miss `getPrice` consults
the provider for every classified symbol, and a failed cache write changes
neither the value returned by `getPrice` nor the key set returned by
`getPrices`. -/
theorem claim8_cache_errors (env : Env) (cache : List CacheRow)
    (symbol : String) (w : String → Bool) (symbols : List String)
    (k : String) :
    (env.cacheReadOk symbol = false → getCachedPrice env cache symbol = none) ∧
    (env.cacheReadOk (toUpperCase symbol) = false →
      ((cryptoLookup (toUpperCase symbol)).isSome = true ∨
        isStockSymbol (toUpperCase symbol) = true) →
      (getPrice env cache symbol).calls ≠ []) ∧
    ((getPrice { env with cacheWriteOk := w } cache symbol).val =
      (getPrice env cache symbol).val) ∧
    ((lookupM (getPrices { env with cacheWriteOk := w } cache symbols).val
        k).isSome ↔
      (lookupM (getPrices env cache symbols).val k).isSome) := by
  refine ⟨?_, ?_, getPrice_val_write env w cache symbol, ?_⟩
  · intro h; simp [getCachedPrice, h]
  · intro hread hclass
    have hmiss : getCachedPrice env cache (toUpperCase symbol) = none := by
      simp [getCachedPrice, hread]
    simp only [getPrice, hmiss]
    rcases hclass with hcr | hst
    · obtain ⟨cid, hcid⟩ := Option.isSome_iff_exists.mp hcr
      simp only [hcr, if_true]
      rw [fetchCryptoPrice_calls env cache hcid]
      simp
    · by_cases hcr : (cryptoLookup (toUpperCase symbol)).isSome
      · obtain ⟨cid, hcid⟩ := Option.isSome_iff_exists.mp hcr
        simp only [hcr, if_true]
        rw [fetchCryptoPrice_calls env cache hcid]
        simp
      · simp only [hcr, Bool.false_eq_true, if_false, hst, if_true]
        rw [fetchStockPrice_calls]
        simp
  · rw [getPrices_key_isSome, getPrices_key_isSome]

/-- Claim C9: every key of the map returned by `PriceService.getPrices` is
upper-case normalized: it equals its own upper-casing, whatever the input
symbols, the cache and the provider outcomes. -/
theorem claim9_keys_upper (env : Env) (cache : List CacheRow)
    (symbols : List String) (k : String)
    (hk : (lookupM (getPrices env cache symbols).val k).isSome) :
    toUpperCase k = k := by
  obtain ⟨s, _, hks, _⟩ := (getPrices_key_isSome env cache symbols k).mp hk
  rw [← hks, toUpperCase_idem]

/-- Witness for claim C2 (amended): a concrete equity symbol with an empty
cache and a throwing Yahoo call gets a manual-sourced record. -/
theorem claim2_witness :
    ∃ priceData, (getPrice envYahooDown [] "AAPL").val = some priceData ∧
      priceData.source = Source.manual :=
  claim2_amended envYahooDown [] "AAPL" (by decide) (by decide) (by decide) rfl

/-- Witness for claim C3 (amended): a freshly cached AAPL record is served
from the cache with no provider call, through both entry points. -/
theorem claim3_witness :
    getPrice envIdle cacheAAPL "AAPL" =
      ⟨some ⟨"AAPL", 150, none, none, 0, Source.yahoo⟩, cacheAAPL, []⟩ ∧
    getPrices envIdle cacheAAPL ["AAPL"] =
      ⟨[("AAPL", some ⟨"AAPL", 150, none, none, 0, Source.yahoo⟩)],
        cacheAAPL, []⟩ := by
  have h := claim3_amended envIdle cacheAAPL "AAPL"
    ⟨"AAPL", 150, none, none, 0, Source.yahoo⟩ (by decide)
  exact ⟨h.1, h.2 (by decide) (by decide)⟩

/-- Witness for claim C5: a row written at time 0 read at time 400000 ms is
expired and reported absent. -/
theorem claim5_witness : getCachedPrice envLate cacheBTC "BTC" = none :=
  (claim5_ttl envLate cacheBTC "BTC" rfl).mpr
    (Or.inr ⟨⟨"BTC", 1, 0⟩, by decide, by decide⟩)

/-- Witness for claim C6: a throwing batch request stores a null for the
requested BTC symbol. -/
theorem claim6_witness :
    lookupM (fetchCryptoPricesBatch envDown [] ["BTC"]).val "BTC" =
      some none :=
  (claim6_batch envDown [] ["BTC"]).1 rfl (by decide) "BTC" (by decide)

/-- Witness for claim C7: a successful Yahoo response with no quote yields
an absent result for AAPL. -/
theorem claim7_witness : (fetchStockPrice envIdle [] "AAPL").val = none :=
  (claim7_zero_price envIdle [] "AAPL").1 rfl

/-- Witness for claim C8: with throwing cache reads, the cached BTC row is
reported absent and `getPrice` still consults the provider. -/
theorem claim8_witness :
    getCachedPrice envNoRead cacheBTC "BTC" = none ∧
    (getPrice envNoRead cacheBTC "BTC").calls ≠ [] := by
  have h := claim8_cache_errors envNoRead cacheBTC "BTC" (fun _ => false) [] "X"
  exact ⟨h.1 rfl, h.2.1 rfl (Or.inl (by decide))⟩

/-- Witness for claim C9: the key stored for a lower-case crypto request is
upper-case normalized. -/
theorem claim9_witness : toUpperCase "BTC" = "BTC" :=
  claim9_keys_upper envDown [] ["btc"] "BTC" (by decide)

/-- Witness for claim C10: an asset with no price entry keeps its purchase
price and zero gain/loss. -/
theorem claim10_witness :
    (valueAsset [] ⟨"AAPL", 2, 50⟩).currentPrice = 50 ∧
    (valueAsset [] ⟨"AAPL", 2, 50⟩).gainLoss = 0 := by
  have h := claim10_absent_or_zero [] ⟨"AAPL", 2, 50⟩ (Or.inl rfl)
  exact ⟨h.1, h.2.2⟩

end WealthTrack
